import Mathlib

/-!
# Verification of the rpass session/storage core

A shallow embedding, in Lean 4, of the parts of the `rpass` repository that
the specification talks about:

* the asymmetric-key placeholder (`rpass/src/key.rs`);
* the filename-safety predicate (`rpass_db/src/callbacks/utils.rs`);
* the wire framer (`rpass/src/session/connector.rs`);
* the command tokenizer (`rpass_db/src/request_dispatcher.rs`);
* the storage cache (`rpass_db/src/storage/mod.rs`);
* the session callbacks `login`, `confirm_login` and `delete_me`
  (`rpass_db/src/callbacks/login.rs`, `rpass_server/src/callbacks/confirm_login.rs`,
  `rpass_db/src/callbacks/delete_me.rs`).

Rust strings are modelled as Lean `String`/`List Char`; because every byte the
protocol singles out (the EOT terminator `0x04`, `'\r'`, `'\n'`, `'"'`) is an
ASCII byte that, in UTF-8, occurs exactly as the encoding of the corresponding
code point, byte-level scans of the Rust code coincide with the char-level
scans used here on all valid UTF-8 data.  Filesystem and RNG effects are made
explicit: each fallible external call becomes an `Except`-valued parameter and
the RNG becomes an explicit stream of samples.  `Arc`/`Weak` reference counts
are modelled by an explicit heap of per-store strong counters inside
`StorageState`.
-/

namespace Rpass

/-! ## Keys (`rpass/src/key.rs`)

`Key` is a pair of big integers (`pub struct Key(pub BigUint, pub BigUint)`).
`encrypt` and `decrypt` are the source's placeholders: both are the identity
on the message (`s.to_owned()`). -/

/-- RSA-Key: `pub struct Key(pub BigUint, pub BigUint)`. -/
structure Key where
  n : Nat
  e : Nat
deriving DecidableEq, Repr

/-- `Key::encrypt`: the source's placeholder returns `s.to_owned()`. -/
def Key.encrypt (_ : Key) (s : String) : String := s

/-- `Key::decrypt`: the source's placeholder returns `s.to_owned()`. -/
def Key.decrypt (_ : Key) (s : String) : String := s

/-! ## Error types

`rpass_db/src/storage/error.rs` and `rpass_db/src/callbacks/error.rs`.
Payloads that are foreign error values (`io::Error`, parse errors) carry no
information that the verified code inspects and are dropped. -/

/-- `storage::Error` (`rpass_db/src/storage/error.rs`). -/
inductive StorageError where
  | Io
  | StoragePathIsNotADirectory
  | UserAlreadyExists (username : String)
  | UserDoesNotExist (username : String)
  | CantParseRecord
  | UnsupportedActionForMultiSession
  | KeyError
deriving DecidableEq, Repr

/-- `callbacks::Error` (`rpass_db/src/callbacks/error.rs`). -/
inductive CbError where
  | UnacceptableRequestAtThisState
  | EmptyUsername
  | InvalidUsername (username : String)
  | EmptyKey
  | InvalidKey
  | EmptyConfirmationString
  | InvalidConfirmationString
  | EmptyResourceName
  | InvalidResourceName
  | EmptyRecordContent
  | InvalidRecordFormat
  | Storage (e : StorageError)
deriving DecidableEq, Repr

/-- Client-side `rpass::Error` (`rpass/src/error.rs`); only the variants the
wire framer can produce are given payload-free shapes, except
`InvalidRequest` whose message string the framer builds. -/
inductive RpassError where
  | CantConnectToTheServer
  | Io
  | InvalidResponseEncoding
  | InvalidRequest (mes : String)
  | InvalidKey
  | InvalidResource (mes : String)
  | CantParseRecord
  | Server (mes : String)
  | UnexpectedResponse (response : String)
deriving DecidableEq, Repr

/-! ## Filename-safety predicate (`rpass_db/src/callbacks/utils.rs`) -/

/-- Rust `name.len()` is the UTF-8 byte length; `charUtf8Size` is the number
of UTF-8 bytes of one scalar value. -/
def charUtf8Size (c : Char) : Nat :=
  if c.toNat < 0x80 then 1
  else if c.toNat < 0x800 then 2
  else if c.toNat < 0x10000 then 3
  else 4

/-- UTF-8 byte length of a string, i.e. Rust's `str::len`. -/
def utf8Len (name : String) : Nat := (name.data.map charUtf8Size).sum

/-- `is_contains_two_dots`: zips the character stream with itself shifted by
one and looks for a `('.', '.')` pair. -/
def is_contains_two_dots (s : String) : Bool :=
  (s.data.zip (s.data.drop 1)).any (fun p => p.1 == '.' && p.2 == '.')

/-- `is_safe_for_filename` (`rpass_db/src/callbacks/utils.rs`): `name` is safe
iff it is non-empty, all chars are ASCII alphanumeric or `.`/`@`/`_`, at least
one char is alphabetic, no `..` occurs, it does not start or end with
`.`/`@`/`_`, and its (byte) length is at most 32.  `Char.isAlphanum` and
`Char.isAlpha` are Lean's ASCII-only classifiers, matching Rust's
`is_ascii_alphanumeric`/`is_ascii_alphabetic`. -/
def is_safe_for_filename (name : String) : Bool :=
  !(name.data.isEmpty
    || !(name.data.all (fun c => c.isAlphanum || c == '.' || c == '@' || c == '_'))
    || !(name.data.any (fun c => c.isAlpha))
    || is_contains_two_dots name
    || (name.data.head? == some '.')
    || (name.data.head? == some '@')
    || (name.data.head? == some '_')
    || (name.data.getLast? == some '.')
    || (name.data.getLast? == some '@')
    || (name.data.getLast? == some '_')
    || decide (utf8Len name > 32))

/-! ## Wire framer (`rpass/src/session/connector.rs`)

`make_request` builds the byte frame a request is sent as; `read_response`
parses one frame out of the incoming stream.  Frames are modelled as
`List Char` (see the header comment on UTF-8 fidelity).  The `Io` and
`InvalidResponseEncoding` failure modes of `read_response` concern the
transport and non-UTF-8 byte streams, which do not arise on the char-level
model; the parsing logic itself is total. -/

/-- End of transmission character: `const EOT: u8 = 0x04`. -/
def EOT : Char := Char.ofNat 4

/-- `request.ends_with("\r\n")`. -/
def endsWithCRLF (l : List Char) : Bool :=
  match l.reverse with
  | '\n' :: '\r' :: _ => true
  | _ => false

/-- `response.strip_suffix("\r\n")`, keeping the response unchanged when the
suffix is absent. -/
def stripCRLF (l : List Char) : List Char :=
  if endsWithCRLF l then l.dropLast.dropLast else l

/-- `make_request`: reject a request containing the EOT byte with
`InvalidRequest`, append `"\r\n"` unless already present, then append the EOT
terminator. -/
def make_request (request : String) : Except RpassError (List Char) :=
  if request.data.any (fun byte => byte == EOT) then
    .error (.InvalidRequest "request should not contain EOT byte")
  else
    let request' := if endsWithCRLF request.data
      then request.data else request.data ++ ['\r', '\n']
    .ok (request' ++ [EOT])

/-- `reader.read_until(EOT, &mut buf)`: everything up to and including the
first EOT, or the whole stream if none occurs. -/
def read_until : List Char → List Char
  | [] => []
  | c :: rest => if c == EOT then [c] else c :: read_until rest

/-- `read_response`: read until EOT; zero bytes read yields the empty text;
strip one trailing EOT if present, then one trailing `"\r\n"` if present. -/
def read_response (input : List Char) : List Char :=
  let buf := read_until input
  if buf.isEmpty then []
  else
    let buf' := if buf.getLast? == some EOT then buf.dropLast else buf
    stripCRLF buf'

/-! ## Storage cache (`rpass_db/src/storage/mod.rs`)

The Rust struct owns `username_to_user_storage: HashMap<String, Weak<RwLock<UserStorage>>>`.
The `Arc`/`Weak` machinery is made explicit: every `Arc<RwLock<UserStorage>>`
ever created is identified by a fresh `Nat` (a `StoreHandle` is such an id),
`strong` records each store object's current strong count (`Weak::strong_count`),
and `owner` records which username a store object was loaded for.  An id is
*live* iff its strong count is positive — exactly when `weak.upgrade()`
succeeds.  Dropping an `Arc` (e.g. a session overwriting its `Authorized`
state) decrements the count. -/

/-- Association-list lookup, mirroring `HashMap::get`. -/
def assocFind {α β : Type} [DecidableEq α] (l : List (α × β)) (k : α) : Option β :=
  match l.find? (fun p => p.1 = k) with
  | some p => some p.2
  | none => none

/-- Association-list insert, mirroring `HashMap::insert` (replaces any
previous binding of the key). -/
def assocInsert {α β : Type} [DecidableEq α] (l : List (α × β)) (k : α) (v : β) :
    List (α × β) :=
  (k, v) :: l.filter (fun p => ¬ p.1 = k)

/-- Association-list removal, mirroring `HashMap::remove`. -/
def assocRemove {α β : Type} [DecidableEq α] (l : List (α × β)) (k : α) :
    List (α × β) :=
  l.filter (fun p => ¬ p.1 = k)

/-- The state of `Storage` (`rpass_db/src/storage/mod.rs`) together with the
explicit `Arc` heap: `cache` is `username_to_user_storage` (weak references,
stored as store ids), `strong` the strong counts of the store objects, and
`owner` the username each store object was created for.  `nextId` supplies
fresh store ids. -/
structure StorageState where
  nextId : Nat
  cache : List (String × Nat)
  strong : List (Nat × Nat)
  owner : List (Nat × String)
deriving DecidableEq, Repr

namespace StorageState

/-- `weak.strong_count()` for the store object `id`. -/
def strongCount (st : StorageState) (id : Nat) : Nat :=
  (assocFind st.strong id).getD 0

/-- Cloning / upgrading a handle to store `id`: strong count goes up by one. -/
def incStrong (st : StorageState) (id : Nat) : StorageState :=
  { st with strong := assocInsert st.strong id (st.strongCount id + 1) }

/-- Dropping a strong handle to store `id`: strong count goes down by one. -/
def decStrong (st : StorageState) (id : Nat) : StorageState :=
  { st with strong := assocInsert st.strong id (st.strongCount id - 1) }

/-- The `if let Some(weak) = map.get(username) { if weak.strong_count() > 0 }`
test both cache functions open with: the id of a cached, still-live store. -/
def cachedLive (st : StorageState) (username : String) : Option Nat :=
  match assocFind st.cache username with
  | some id => if 0 < st.strongCount id then some id else none
  | none => none

/-- Loading a fresh store for `username`: a new store object (`Arc::new`,
strong count 1) is created and `Arc::downgrade`d into the cache. -/
def registerFresh (st : StorageState) (username : String) : StorageState :=
  { nextId := st.nextId + 1
    cache := assocInsert st.cache username st.nextId
    strong := assocInsert st.strong st.nextId 1
    owner := assocInsert st.owner st.nextId username }

/-- `Storage::get_user_storage`: upgrade the cached weak handle when it still
has a live strong holder; otherwise load the user's store fresh
(`UserStorage::new`, whose filesystem outcome is the explicit parameter
`loadRes`) and register a weak handle for it.  Returns the obtained handle and
the state after the call. -/
def get_user_storage (st : StorageState) (username : String)
    (loadRes : Except StorageError Unit) :
    Except StorageError Nat × StorageState :=
  match st.cachedLive username with
  | some id => (.ok id, st.incStrong id)
  | none =>
    match loadRes with
    | .ok _ => (.ok st.nextId, st.registerFresh username)
    | .error e => (.error e, st)

/-- `Storage::delete_user`: fail with `UnsupportedActionForMultiSession` while
the cached weak handle has a live strong holder; otherwise remove the cache
entry and delete the backing directory (`fs::remove_dir_all`, outcome
`fsRes`), propagating its failure. -/
def delete_user (st : StorageState) (username : String)
    (fsRes : Except StorageError Unit) :
    Except StorageError Unit × StorageState :=
  match st.cachedLive username with
  | some _ => (.error .UnsupportedActionForMultiSession, st)
  | none =>
    let st' := { st with cache := assocRemove st.cache username }
    (fsRes, st')

end StorageState

/-! ## Session (`rpass_db/src/session.rs`) -/

/-- `Unauthorized { username, login_confirmation }`; `Default` gives two empty
strings. -/
structure Unauthorized where
  username : String := ""
  login_confirmation : String := ""
deriving DecidableEq, Repr

/-- `Authorized { username, user_storage }`; the `Arc<RwLock<UserStorage>>`
handle is a store id of the `StorageState` heap. -/
structure Authorized where
  username : String
  user_storage : Nat
deriving DecidableEq, Repr

/-- `Session` of `rpass_db/src/session.rs`: exactly the `Unauthorized` and
`Authorized` variants. -/
inductive Session where
  | Unauthorized (u : Unauthorized)
  | Authorized (a : Authorized)
deriving DecidableEq, Repr

/-- `session.as_authorized()`: non-consuming inspection of the `Authorized`
variant (the callers clone out of the returned reference). -/
def Session.as_authorized : Session → Option Rpass.Authorized
  | .Authorized a => some a
  | _ => none

/-! ## `delete_me` (`rpass_db/src/callbacks/delete_me.rs`)

The source sequence: take the username out of the `Authorized` variant,
overwrite the session with `Unauthorized::default()` — which drops the
session's own `Arc` handle, so the weak entry's strong count reflects only
other sessions — then `delete_user`.  On failure, rebuild an `Authorized`
session around `get_user_storage(&username).unwrap()`: the `.unwrap()` panics
when that re-acquisition itself fails, which the model renders as `none`. -/

/-- `delete_me`.  `fsRes` is the `fs::remove_dir_all` outcome inside
`delete_user`; `reloadRes` is the `UserStorage::new` outcome inside the
restoring `get_user_storage` call.  `none` models the `.unwrap()` panic. -/
def delete_me (st : StorageState) (session : Session)
    (fsRes reloadRes : Except StorageError Unit) :
    Option (Except CbError String × Session × StorageState) :=
  match session.as_authorized with
  | none => some (.error .UnacceptableRequestAtThisState, session, st)
  | some authorized_session =>
    let username := authorized_session.username
    -- `*session = Session::Unauthorized(Unauthorized::default())` drops the
    -- session's own strong handle:
    let st := st.decStrong authorized_session.user_storage
    let session := Session.Unauthorized {}
    match st.delete_user username fsRes with
    | (.ok _, st') => some (.ok "Ok", session, st')
    | (.error err, st') =>
      match st'.get_user_storage username reloadRes with
      | (.ok id, st'') =>
        some (.error (.Storage err), .Authorized ⟨username, id⟩, st'')
      | (.error _, _) => none

/-! ## `login` (`rpass_db/src/callbacks/login.rs`)

The RNG is the explicit sample stream `r`: `thread_rng().sample_iter(&Alphanumeric)`
draws uniformly from the 62-symbol alphanumeric charset of the `rand` crate,
so each sample is an index into that charset. -/

/-- The `rand` crate's `Alphanumeric` charset (`GEN_ASCII_STR_CHARSET`). -/
def GEN_ASCII_STR_CHARSET : List Char :=
  "ABCDEFGHIJKLMNOPQRSTUVWXYZabcdefghijklmnopqrstuvwxyz0123456789".data

/-- One draw of `Alphanumeric`: the sampled index mapped into the charset. -/
def sampleAlphanumeric (r : Nat → Fin 62) (i : Nat) : Char :=
  GEN_ASCII_STR_CHARSET.getD (r i) 'A'

/-- `thread_rng().sample_iter(&Alphanumeric).take(len).map(char::from).collect()`. -/
def randAlphanumericString (r : Nat → Fin 62) (len : Nat) : String :=
  String.mk ((List.range len).map (sampleAlphanumeric r))

/-- `const RAND_STRING_LENGTH: usize = 30`. -/
def RAND_STRING_LENGTH : Nat := 30

/-- `login`: read the username argument, validate it with
`is_safe_for_filename`, fetch the user's public key (filesystem outcome
`keyRes`), generate a 30-character alphanumeric nonce, store the session as
`Unauthorized { username, login_confirmation: pub_key.encrypt(nonce) }` and
return that confirmation string.  `login` only reads the storage, so the
`StorageState` is not threaded through. -/
def login (session : Session) (args : List String)
    (keyRes : Except StorageError Key) (r : Nat → Fin 62) :
    Except CbError String × Session :=
  match args.head? with
  | none => (.error .EmptyUsername, session)
  | some username =>
    if ¬ is_safe_for_filename username then
      (.error (.InvalidUsername username), session)
    else
      match keyRes with
      | .error e => (.error (.Storage e), session)
      | .ok user_pub_key =>
        let rand_string := randAlphanumericString r RAND_STRING_LENGTH
        let login_confirmation := user_pub_key.encrypt rand_string
        (.ok login_confirmation,
          .Unauthorized ⟨username, login_confirmation⟩)

/-! ## `confirm_login` (`rpass_server/src/callbacks/confirm_login.rs`)

The handler opens with `session.as_unauthorized()`, a *consuming* transition:
it moves the `Unauthorized` data out of the session, leaving
`Unauthorized::default()` behind (the design notes describe the session
methods as consuming the old state; the handler moves `unauthorized_session.username`
out of the returned value, and the module's tests observe
`session.is_unauthorized()` after failed calls on `Authorized` sessions).
Consuming an `Authorized` session would drop its store handle, hence the
strong-count decrement in that branch. -/

/-- `confirm_login`: requires an `Unauthorized` session and a confirmation
argument; decrypts it with the server's secret key and compares with the
stored `login_confirmation`.  On mismatch: `InvalidConfirmationString`, the
session left at `Unauthorized::default()` (the pending challenge was consumed).
On match: obtain a store handle via `get_user_storage` (load outcome
`loadRes`) and become `Authorized`. -/
def confirm_login (st : StorageState) (session : Session) (args : List String)
    (sec_key : Key) (loadRes : Except StorageError Unit) :
    Except CbError String × Session × StorageState :=
  match session with
  | .Authorized a =>
    -- consuming `as_unauthorized` fails but has already taken the session
    -- apart, dropping the `Authorized` handle:
    (.error .UnacceptableRequestAtThisState, .Unauthorized {},
      st.decStrong a.user_storage)
  | .Unauthorized unauthorized_session =>
    let session := Session.Unauthorized {}
    match args.head? with
    | none => (.error .EmptyConfirmationString, session, st)
    | some encrypted_confirmation =>
      let confirmation := sec_key.decrypt encrypted_confirmation
      if confirmation ≠ unauthorized_session.login_confirmation then
        (.error .InvalidConfirmationString, session, st)
      else
        match st.get_user_storage unauthorized_session.username loadRes with
        | (.ok id, st') =>
          (.ok "Ok", .Authorized ⟨unauthorized_session.username, id⟩, st')
        | (.error e, st') => (.error (.Storage e), session, st')

/-! ## Command tokenizer (`rpass_db/src/request_dispatcher.rs`)

`ARGUMENTS_REGEX` is `(?s)([^\s"]+|(?:".*?"))\s?+`, scanned with
`captures_iter` and each capture passed through `strip_quotes`.  The scan
below reproduces the regex engine's behaviour: at each position, either a
maximal run of non-whitespace non-quote characters matches, or a lazily-closed
double-quoted span matches (its interior is emitted, i.e. `strip_quotes`
applied to the capture), or no match starts here and the engine advances one
character (whitespace, or an opening quote that is never closed).  The
possessive `\s?+` tail consumes at most one whitespace character after a
match, which the scan's whitespace-skipping subsumes. -/

/-- The double-quote character. -/
def QUOTE : Char := Char.ofNat 34

/-- The characters matched by the regex class `\s` (Unicode `White_Space`). -/
def regexWhitespace : List Char :=
  [Char.ofNat 0x09, Char.ofNat 0x0A, Char.ofNat 0x0B, Char.ofNat 0x0C,
   Char.ofNat 0x0D, ' ', Char.ofNat 0x85, Char.ofNat 0xA0, Char.ofNat 0x1680,
   Char.ofNat 0x2000, Char.ofNat 0x2001, Char.ofNat 0x2002, Char.ofNat 0x2003,
   Char.ofNat 0x2004, Char.ofNat 0x2005, Char.ofNat 0x2006, Char.ofNat 0x2007,
   Char.ofNat 0x2008, Char.ofNat 0x2009, Char.ofNat 0x200A, Char.ofNat 0x2028,
   Char.ofNat 0x2029, Char.ofNat 0x202F, Char.ofNat 0x205F, Char.ofNat 0x3000]

/-- `c` matches `\s`. -/
def isRegexWhitespace (c : Char) : Bool := regexWhitespace.contains c

/-- Greedy `[^\s"]+` continuation: the maximal further run of
non-whitespace, non-quote characters, together with the rest of the input. -/
def takeRun : List Char → List Char × List Char
  | [] => ([], [])
  | c :: rest =>
    if isRegexWhitespace c || c == QUOTE then ([], c :: rest)
    else
      let p := takeRun rest
      (c :: p.1, p.2)

/-- Lazy `".*?"` continuation after an opening quote: the interior up to the
first closing quote and the rest of the input, or `none` when the quote is
never closed. -/
def splitAtQuote : List Char → Option (List Char × List Char)
  | [] => none
  | c :: rest =>
    if c == QUOTE then some ([], rest)
    else
      match splitAtQuote rest with
      | some p => some (c :: p.1, p.2)
      | none => none

theorem takeRun_snd_length_le (l : List Char) : (takeRun l).2.length ≤ l.length := by
  induction l with
  | nil => simp [takeRun]
  | cons c rest ih =>
    simp only [takeRun]
    split
    · simp
    · simpa using Nat.le_succ_of_le ih

theorem splitAtQuote_snd_length_lt (l : List Char) (p : List Char × List Char)
    (h : splitAtQuote l = some p) : p.2.length < l.length := by
  induction l generalizing p with
  | nil => simp [splitAtQuote] at h
  | cons c rest ih =>
    simp only [splitAtQuote] at h
    split at h
    · cases h
      simp
    · revert h
      split
      next p' heq =>
        intro h
        cases h
        exact Nat.lt_succ_of_lt (ih p' heq)
      next =>
        intro h
        cases h

/-- The token stream `ARGUMENTS_REGEX.captures_iter(request).map(|x| strip_quotes(&x[1]))`
produces, over the characters of the request. -/
def tokenize (l : List Char) : List (List Char) :=
  match l with
  | [] => []
  | c :: rest =>
    if c == QUOTE then
      match h : splitAtQuote rest with
      | some p => p.1 :: tokenize p.2
      | none => tokenize rest
    else if isRegexWhitespace c then tokenize rest
    else
      (c :: (takeRun rest).1) :: tokenize (takeRun rest).2
termination_by l.length
decreasing_by
  · have := splitAtQuote_snd_length_lt rest p h
    simp only [List.length_cons]
    omega
  · simp only [List.length_cons]
    omega
  · simp only [List.length_cons]
    omega
  · have := takeRun_snd_length_le rest
    simp only [List.length_cons]
    omega

/-- The token list seen by `RequestDispatcher::dispatch`'s argument iterator. -/
def dispatch_tokens (request : String) : List String :=
  (tokenize request.data).map String.mk

/-- `dispatch`'s command/argument split: the first token is the command, the
remaining tokens the positional arguments (`None` is the
`NoCommandProvided` case). -/
def dispatch_split (request : String) : Option (String × List String) :=
  match dispatch_tokens request with
  | [] => none
  | cmd :: args => some (cmd, args)

/-! ## Association-list lemmas -/

theorem assocFind_eq_none {α β : Type} [DecidableEq α] {l : List (α × β)} {k : α}
    (h : ∀ p ∈ l, p.1 ≠ k) : assocFind l k = none := by
  unfold assocFind
  have : l.find? (fun p => p.1 = k) = none := by
    rw [List.find?_eq_none]
    intro p hp
    simpa using h p hp
  rw [this]

theorem assocFind_mem {α β : Type} [DecidableEq α] {l : List (α × β)} {k : α} {v : β}
    (h : assocFind l k = some v) : (k, v) ∈ l := by
  unfold assocFind at h
  revert h
  split
  next p hp =>
    intro h
    cases h
    have hmem := List.mem_of_find?_eq_some hp
    have hkey := List.find?_some hp
    simp at hkey
    cases p
    simp_all
  next =>
    intro h
    cases h

theorem assocFind_cons {α β : Type} [DecidableEq α] (l : List (α × β)) (k k' : α) (v : β) :
    assocFind ((k, v) :: l) k' = if k = k' then some v else assocFind l k' := by
  unfold assocFind
  by_cases h : k = k' <;> simp [List.find?, h]

theorem assocFind_filter_ne {α β : Type} [DecidableEq α] (l : List (α × β)) (k k' : α)
    (hne : k' ≠ k) :
    assocFind (l.filter (fun p => ¬ p.1 = k)) k' = assocFind l k' := by
  induction l with
  | nil => rfl
  | cons p rest ih =>
    obtain ⟨a, b⟩ := p
    by_cases ha : a = k
    · subst ha
      have hak' : ¬ a = k' := fun h => hne h.symm
      rw [List.filter_cons_of_neg (by simp), ih, assocFind_cons, if_neg hak']
    · rw [List.filter_cons_of_pos (by simp [ha]), assocFind_cons, assocFind_cons, ih]

theorem assocFind_insert_self {α β : Type} [DecidableEq α] (l : List (α × β)) (k : α) (v : β) :
    assocFind (assocInsert l k v) k = some v := by
  unfold assocInsert
  simp [assocFind_cons]

theorem assocFind_insert_ne {α β : Type} [DecidableEq α] (l : List (α × β)) (k k' : α) (v : β)
    (hne : k' ≠ k) :
    assocFind (assocInsert l k v) k' = assocFind l k' := by
  unfold assocInsert
  rw [assocFind_cons, if_neg (fun h => hne h.symm), assocFind_filter_ne l k k' hne]

theorem assocFind_remove_self {α β : Type} [DecidableEq α] (l : List (α × β)) (k : α) :
    assocFind (assocRemove l k) k = none := by
  unfold assocRemove
  apply assocFind_eq_none
  intro p hp
  have := List.of_mem_filter hp
  simpa using this

theorem assocFind_remove_ne {α β : Type} [DecidableEq α] (l : List (α × β)) (k k' : α)
    (hne : k' ≠ k) :
    assocFind (assocRemove l k) k' = assocFind l k' := by
  unfold assocRemove
  exact assocFind_filter_ne l k k' hne

theorem mem_assocInsert {α β : Type} [DecidableEq α] {l : List (α × β)} {k : α} {v : β}
    {p : α × β} (h : p ∈ assocInsert l k v) : p = (k, v) ∨ p ∈ l := by
  unfold assocInsert at h
  rcases List.mem_cons.mp h with h' | h'
  · exact Or.inl h'
  · exact Or.inr (List.mem_of_mem_filter h')

theorem mem_assocRemove {α β : Type} [DecidableEq α] {l : List (α × β)} {k : α}
    {p : α × β} (h : p ∈ assocRemove l k) : p ∈ l :=
  List.mem_of_mem_filter h

/-! ## Storage-state computation lemmas -/

namespace StorageState

theorem strongCount_incStrong (st : StorageState) (id id' : Nat) :
    (st.incStrong id).strongCount id' =
      if id' = id then st.strongCount id + 1 else st.strongCount id' := by
  unfold incStrong strongCount
  by_cases h : id' = id
  · subst h
    simp [assocFind_insert_self]
  · simp [assocFind_insert_ne _ _ _ _ h, h]

theorem strongCount_decStrong (st : StorageState) (id id' : Nat) :
    (st.decStrong id).strongCount id' =
      if id' = id then st.strongCount id - 1 else st.strongCount id' := by
  unfold decStrong strongCount
  by_cases h : id' = id
  · subst h
    simp [assocFind_insert_self]
  · simp [assocFind_insert_ne _ _ _ _ h, h]

theorem strongCount_registerFresh (st : StorageState) (u : String) (id' : Nat) :
    (st.registerFresh u).strongCount id' =
      if id' = st.nextId then 1 else st.strongCount id' := by
  unfold registerFresh strongCount
  by_cases h : id' = st.nextId
  · subst h
    simp [assocFind_insert_self]
  · simp [assocFind_insert_ne _ _ _ _ h, h]

theorem strongCount_pos_mem {st : StorageState} {id : Nat}
    (h : 0 < st.strongCount id) : (id, st.strongCount id) ∈ st.strong := by
  unfold strongCount at *
  revert h
  cases hf : assocFind st.strong id with
  | none => simp
  | some n =>
    intro _
    simpa [hf] using assocFind_mem hf

/-- The `cachedLive` test unfolded: the cached id with a live strong count. -/
theorem cachedLive_eq_some_iff (st : StorageState) (u : String) (id : Nat) :
    st.cachedLive u = some id ↔
      assocFind st.cache u = some id ∧ 0 < st.strongCount id := by
  unfold cachedLive
  cases hf : assocFind st.cache u with
  | none => simp
  | some id' =>
    by_cases hc : 0 < st.strongCount id'
    · simp only [if_pos hc]
      constructor
      · intro h
        cases h
        exact ⟨rfl, hc⟩
      · intro ⟨h1, _⟩
        cases h1
        rfl
    · simp only [if_neg hc]
      constructor
      · intro h
        cases h
      · intro ⟨h1, h2⟩
        cases h1
        exact absurd h2 hc

theorem cachedLive_eq_none_iff (st : StorageState) (u : String) :
    st.cachedLive u = none ↔
      ∀ id, assocFind st.cache u = some id → st.strongCount id = 0 := by
  unfold cachedLive
  cases hf : assocFind st.cache u with
  | none => simp
  | some id' =>
    by_cases hc : 0 < st.strongCount id' <;> simp [hc] <;> omega

/-- The storage-cache invariant: store ids in use stay below `nextId`
(freshness), and every *live* store object (positive strong count) owned by a
username is exactly the store its cache entry points to. -/
def Inv (st : StorageState) : Prop :=
  (∀ p ∈ st.cache, p.2 < st.nextId) ∧
  (∀ p ∈ st.strong, 0 < p.2 → p.1 < st.nextId) ∧
  (∀ p ∈ st.owner, p.1 < st.nextId) ∧
  (∀ id u, assocFind st.owner id = some u → 0 < st.strongCount id →
    assocFind st.cache u = some id)

theorem Inv.live_lt_nextId {st : StorageState} (hInv : st.Inv) {id : Nat}
    (hlive : 0 < st.strongCount id) : id < st.nextId :=
  hInv.2.1 _ (strongCount_pos_mem hlive) hlive

theorem Inv.incStrong {st : StorageState} (hInv : st.Inv) {id : Nat}
    (hlive : 0 < st.strongCount id) : (st.incStrong id).Inv := by
  obtain ⟨h1, h2, h3, h4⟩ := hInv
  have hid : id < st.nextId := Inv.live_lt_nextId ⟨h1, h2, h3, h4⟩ hlive
  refine ⟨h1, ?_, h3, ?_⟩
  · intro p hp hpos
    rcases mem_assocInsert hp with h | h
    · rw [h]
      exact hid
    · exact h2 p h hpos
  · intro id' u hown hlive'
    rw [strongCount_incStrong] at hlive'
    by_cases he : id' = id
    · subst he
      exact h4 id' u hown hlive
    · rw [if_neg he] at hlive'
      exact h4 id' u hown hlive'

theorem Inv.registerFresh {st : StorageState} (hInv : st.Inv) {u : String}
    (hnone : st.cachedLive u = none) : (st.registerFresh u).Inv := by
  obtain ⟨h1, h2, h3, h4⟩ := hInv
  refine ⟨?_, ?_, ?_, ?_⟩
  · intro p hp
    rcases mem_assocInsert hp with h | h
    · rw [h]
      exact Nat.lt_succ_self _
    · exact Nat.lt_succ_of_lt (h1 p h)
  · intro p hp hpos
    rcases mem_assocInsert hp with h | h
    · rw [h]
      exact Nat.lt_succ_self _
    · exact Nat.lt_succ_of_lt (h2 p h hpos)
  · intro p hp
    rcases mem_assocInsert hp with h | h
    · rw [h]
      exact Nat.lt_succ_self _
    · exact Nat.lt_succ_of_lt (h3 p h)
  · intro id' u' hown hlive'
    rw [strongCount_registerFresh] at hlive'
    by_cases he : id' = st.nextId
    · subst he
      rw [show (st.registerFresh u).owner = assocInsert st.owner st.nextId u from rfl,
        assocFind_insert_self] at hown
      cases hown
      exact assocFind_insert_self _ _ _
    · rw [if_neg he] at hlive'
      rw [show (st.registerFresh u).owner = assocInsert st.owner st.nextId u from rfl,
        assocFind_insert_ne _ _ _ _ he] at hown
      have hcache := h4 id' u' hown hlive'
      by_cases hu : u' = u
      · subst hu
        have := (cachedLive_eq_none_iff st u').mp hnone id' hcache
        omega
      · rw [show (st.registerFresh u).cache = assocInsert st.cache u st.nextId from rfl,
          assocFind_insert_ne _ _ _ _ hu]
        exact hcache

theorem Inv.removeCache {st : StorageState} (hInv : st.Inv) {u : String}
    (hnone : st.cachedLive u = none) :
    Inv { st with cache := assocRemove st.cache u } := by
  obtain ⟨h1, h2, h3, h4⟩ := hInv
  refine ⟨?_, h2, h3, ?_⟩
  · intro p hp
    exact h1 p (mem_assocRemove hp)
  · intro id' u' hown hlive'
    have hlive'' : 0 < st.strongCount id' := hlive'
    have hown' : assocFind st.owner id' = some u' := hown
    have hcache := h4 id' u' hown' hlive''
    by_cases hu : u' = u
    · subst hu
      have := (cachedLive_eq_none_iff st u').mp hnone id' hcache
      omega
    · show assocFind (assocRemove st.cache u) u' = some id'
      rw [assocFind_remove_ne _ _ _ hu]
      exact hcache

theorem Inv.decStrong {st : StorageState} (hInv : st.Inv) (id : Nat) :
    (st.decStrong id).Inv := by
  obtain ⟨h1, h2, h3, h4⟩ := hInv
  refine ⟨h1, ?_, h3, ?_⟩
  · intro p hp hpos
    rcases mem_assocInsert hp with h | h
    · subst h
      have hpos' : 0 < st.strongCount id - 1 := hpos
      have : 0 < st.strongCount id := by omega
      show id < st.nextId
      exact Inv.live_lt_nextId ⟨h1, h2, h3, h4⟩ this
    · exact h2 p h hpos
  · intro id' u hown hlive'
    rw [strongCount_decStrong] at hlive'
    by_cases he : id' = id
    · subst he
      rw [if_pos rfl] at hlive'
      exact h4 id' u hown (by omega)
    · rw [if_neg he] at hlive'
      exact h4 id' u hown hlive'

theorem Inv.get_user_storage {st : StorageState} (hInv : st.Inv) (u : String)
    (loadRes : Except StorageError Unit) :
    ((st.get_user_storage u loadRes).2).Inv := by
  unfold StorageState.get_user_storage
  cases hc : st.cachedLive u with
  | some id =>
    have := (cachedLive_eq_some_iff st u id).mp hc
    exact hInv.incStrong this.2
  | none =>
    cases loadRes with
    | ok _ => exact hInv.registerFresh hc
    | error e => exact hInv

theorem Inv.delete_user {st : StorageState} (hInv : st.Inv) (u : String)
    (fsRes : Except StorageError Unit) :
    ((st.delete_user u fsRes).2).Inv := by
  unfold StorageState.delete_user
  cases hc : st.cachedLive u with
  | some id => exact hInv
  | none => exact hInv.removeCache hc

/-- Any Inv state has at most one live store object per username. -/
theorem Inv.unique_live {st : StorageState} (hInv : st.Inv) {id₁ id₂ : Nat}
    {v : String} (h1 : assocFind st.owner id₁ = some v)
    (h2 : assocFind st.owner id₂ = some v)
    (l1 : 0 < st.strongCount id₁) (l2 : 0 < st.strongCount id₂) : id₁ = id₂ := by
  have e1 := hInv.2.2.2 id₁ v h1 l1
  have e2 := hInv.2.2.2 id₂ v h2 l2
  rw [e1] at e2
  cases e2
  rfl

/-- A handle returned by `get_user_storage` is live in the resulting state. -/
theorem get_user_storage_ok_live {st st' : StorageState} {u : String}
    {loadRes : Except StorageError Unit} {id : Nat}
    (h : st.get_user_storage u loadRes = (.ok id, st')) :
    0 < st'.strongCount id := by
  unfold StorageState.get_user_storage at h
  revert h
  cases hc : st.cachedLive u with
  | some id' =>
    intro h
    cases h
    rw [strongCount_incStrong, if_pos rfl]
    omega
  | none =>
    cases loadRes with
    | ok _ =>
      intro h
      cases h
      rw [strongCount_registerFresh, if_pos rfl]
      omega
    | error e =>
      intro h
      cases h

/-- With a succeeding filesystem load, `get_user_storage` always succeeds. -/
theorem get_user_storage_ok_total (st : StorageState) (u : String) :
    ∃ id st', st.get_user_storage u (.ok ()) = (.ok id, st') := by
  unfold StorageState.get_user_storage
  cases hc : st.cachedLive u with
  | some id => exact ⟨id, _, rfl⟩
  | none => exact ⟨st.nextId, _, rfl⟩

end StorageState

open StorageState in
/-- **C1**: for every username, `get_user_storage` returns a handle to the
already-live store whenever the cached weak handle has a live strong holder
(upgrade, no new cache entry), and only loads a fresh store and registers a
new weak entry otherwise; the storage-cache invariant is preserved by
`get_user_storage`, `delete_user` and handle drops, and under it at most one
live store object exists per username (and a freshly loaded store is distinct
from every live one). -/
theorem get_user_storage_single_live_store :
    ∀ (st : StorageState) (u : String) (loadRes : Except StorageError Unit),
      (∀ id, st.cachedLive u = some id →
        st.get_user_storage u loadRes = (.ok id, st.incStrong id) ∧
        (st.incStrong id).cache = st.cache ∧
        assocFind st.cache u = some id ∧ 0 < st.strongCount id) ∧
      (st.cachedLive u = none → loadRes = .ok () →
        st.get_user_storage u loadRes = (.ok st.nextId, st.registerFresh u) ∧
        assocFind (st.registerFresh u).cache u = some st.nextId ∧
        (st.Inv → ∀ id, 0 < st.strongCount id → st.nextId ≠ id)) ∧
      (st.Inv → ((st.get_user_storage u loadRes).2).Inv) ∧
      (st.Inv → ∀ id₁ id₂ v, assocFind st.owner id₁ = some v →
        assocFind st.owner id₂ = some v →
        0 < st.strongCount id₁ → 0 < st.strongCount id₂ → id₁ = id₂) ∧
      (st.Inv → ∀ fsRes, ((st.delete_user u fsRes).2).Inv) ∧
      (st.Inv → ∀ id, (st.decStrong id).Inv) := by
  intro st u loadRes
  refine ⟨?_, ?_, ?_, ?_, ?_, ?_⟩
  · intro id hc
    have hl := (cachedLive_eq_some_iff st u id).mp hc
    refine ⟨?_, rfl, hl.1, hl.2⟩
    unfold StorageState.get_user_storage
    rw [hc]
  · intro hc hload
    subst hload
    refine ⟨?_, ?_, ?_⟩
    · unfold StorageState.get_user_storage
      rw [hc]
    · exact assocFind_insert_self _ _ _
    · intro hInv id hlive
      have := hInv.live_lt_nextId hlive
      omega
  · intro hInv
    exact hInv.get_user_storage u loadRes
  · intro hInv id₁ id₂ v h1 h2 l1 l2
    exact hInv.unique_live h1 h2 l1 l2
  · intro hInv fsRes
    exact hInv.delete_user u fsRes
  · intro hInv id
    exact hInv.decStrong id

/-- Witness for C1: on the empty cache, `get_user_storage "alice"` loads a
fresh store with id 0 and registers a weak cache entry for it. -/
theorem get_user_storage_single_live_store_witness :
    StorageState.get_user_storage ⟨0, [], [], []⟩ "alice" (.ok ())
      = (.ok 0, StorageState.registerFresh ⟨0, [], [], []⟩ "alice") ∧
    assocFind (StorageState.registerFresh ⟨0, [], [], []⟩ "alice").cache "alice"
      = some 0 := by
  have h := (get_user_storage_single_live_store ⟨0, [], [], []⟩ "alice"
    (.ok ())).2.1 rfl rfl
  exact ⟨h.1, h.2.1⟩

open StorageState in
/-- **C2**: `delete_user` fails with `UnsupportedActionForMultiSession` when
the cached weak handle for the username has a live strong holder, leaving the
state (cache entry and handles) untouched; with no live strong holder it
removes the cache entry and deletes the backing data, propagating `Io`
failures of the filesystem removal. -/
theorem delete_user_multisession_guard :
    ∀ (st : StorageState) (u : String) (fsRes : Except StorageError Unit),
      (∀ id, assocFind st.cache u = some id → 0 < st.strongCount id →
        st.delete_user u fsRes = (.error .UnsupportedActionForMultiSession, st)) ∧
      (st.cachedLive u = none →
        st.delete_user u fsRes
          = (fsRes, { st with cache := assocRemove st.cache u }) ∧
        assocFind ((st.delete_user u fsRes).2).cache u = none) ∧
      (st.cachedLive u = none → fsRes = .error .Io →
        (st.delete_user u fsRes).1 = .error .Io) := by
  intro st u fsRes
  have hdel : ∀ (hc : st.cachedLive u = none),
      st.delete_user u fsRes = (fsRes, { st with cache := assocRemove st.cache u }) := by
    intro hc
    unfold StorageState.delete_user
    rw [hc]
  refine ⟨?_, ?_, ?_⟩
  · intro id hfind hlive
    have hc : st.cachedLive u = some id :=
      (cachedLive_eq_some_iff st u id).mpr ⟨hfind, hlive⟩
    unfold StorageState.delete_user
    rw [hc]
  · intro hc
    refine ⟨hdel hc, ?_⟩
    rw [hdel hc]
    exact assocFind_remove_self _ _
  · intro hc hio
    rw [hdel hc, hio]

/-- Witness for C2: with one live handle for `"alice"`, `delete_user` fails
with `UnsupportedActionForMultiSession` and the state is unchanged; on the
empty cache it removes the (absent) entry and propagates the `fs` result. -/
theorem delete_user_multisession_guard_witness :
    StorageState.delete_user ⟨1, [("alice", 0)], [(0, 1)], [(0, "alice")]⟩ "alice" (.ok ())
      = (.error .UnsupportedActionForMultiSession,
         ⟨1, [("alice", 0)], [(0, 1)], [(0, "alice")]⟩) ∧
    (StorageState.delete_user ⟨0, [], [], []⟩ "alice" (.error .Io)).1 = .error .Io := by
  constructor
  · exact (delete_user_multisession_guard
      ⟨1, [("alice", 0)], [(0, 1)], [(0, "alice")]⟩ "alice" (.ok ())).1 0 rfl (by decide)
  · exact (delete_user_multisession_guard ⟨0, [], [], []⟩ "alice"
      (.error .Io)).2.2 rfl rfl

open StorageState in
/-- **C3**: `delete_me` on an `Authorized` session first drops the session's
own store handle (the state `delete_user` runs on is `st.decStrong h`, so the
weak entry's strong count reflects only other sessions), then deletes; on
success it returns `Ok` and leaves the session `Unauthorized` without a
handle, and on delete failure it re-acquires a fresh handle via
`get_user_storage`, leaves the session `Authorized` for the same username,
and returns the error.  On a non-`Authorized` session it fails with
`UnacceptableRequestAtThisState` without touching storage. -/
theorem delete_me_drop_then_delete :
    ∀ (st : StorageState) (u : String) (h : Nat)
      (fsRes reloadRes : Except StorageError Unit),
      (∀ unauth : Unauthorized,
        delete_me st (.Unauthorized unauth) fsRes reloadRes
          = some (.error .UnacceptableRequestAtThisState, .Unauthorized unauth, st)) ∧
      (∀ st', (st.decStrong h).delete_user u fsRes = (.ok (), st') →
        delete_me st (.Authorized ⟨u, h⟩) fsRes reloadRes
          = some (.ok "Ok", .Unauthorized {}, st')) ∧
      (∀ e st' id st'', (st.decStrong h).delete_user u fsRes = (.error e, st') →
        st'.get_user_storage u reloadRes = (.ok id, st'') →
        delete_me st (.Authorized ⟨u, h⟩) fsRes reloadRes
          = some (.error (.Storage e), .Authorized ⟨u, id⟩, st'')) := by
  intro st u h fsRes reloadRes
  refine ⟨?_, ?_, ?_⟩
  · intro unauth
    rfl
  · intro st' hdu
    simp only [delete_me, Session.as_authorized]
    rw [hdu]
  · intro e st' id st'' hdu hget
    simp only [delete_me, Session.as_authorized]
    rw [hdu]
    simp only [hget]

/-- Witness for C3: a lone session for `"alice"` (cache entry with strong
count 1) successfully deletes itself and ends up `Unauthorized`. -/
theorem delete_me_drop_then_delete_witness :
    delete_me ⟨1, [("alice", 0)], [(0, 1)], [(0, "alice")]⟩
        (.Authorized ⟨"alice", 0⟩) (.ok ()) (.ok ())
      = some (.ok "Ok", .Unauthorized {}, ⟨1, [], [(0, 0)], [(0, "alice")]⟩) :=
  (delete_me_drop_then_delete ⟨1, [("alice", 0)], [(0, 1)], [(0, "alice")]⟩
    "alice" 0 (.ok ()) (.ok ())).2.1 _ rfl

open StorageState in
/-- **C10**: `delete_me` never returns a handle-less `Authorized` session: on
every non-panicking return the session is either `Unauthorized` or
`Authorized` with a live (re-acquired) store handle; and it panics (returns
`none`) exactly when, after a failed delete, the restoring
`get_user_storage` call itself fails — the `.unwrap()` on the restore path. -/
theorem delete_me_no_dangling_session :
    ∀ (st : StorageState) (session : Session)
      (fsRes reloadRes : Except StorageError Unit),
      (∀ res ses' st', delete_me st session fsRes reloadRes = some (res, ses', st') →
        (∃ unauth, ses' = .Unauthorized unauth) ∨
        (∃ a : Authorized, ses' = .Authorized a ∧
          0 < st'.strongCount a.user_storage)) ∧
      (delete_me st session fsRes reloadRes = none ↔
        ∃ a : Authorized, session = .Authorized a ∧
          ∃ e st', (st.decStrong a.user_storage).delete_user a.username fsRes
              = (.error e, st') ∧
            ∃ e', (st'.get_user_storage a.username reloadRes).1 = .error e') := by
  intro st session fsRes reloadRes
  cases session with
  | Unauthorized unauth =>
    constructor
    · intro res ses' st' hret
      cases hret
      exact Or.inl ⟨unauth, rfl⟩
    · constructor
      · intro hret
        cases hret
      · intro ⟨a, ha, _⟩
        cases ha
  | Authorized a =>
    obtain ⟨u, h⟩ := a
    rcases hdu : (st.decStrong h).delete_user u fsRes with ⟨r, st'⟩
    cases r with
    | ok r0 =>
      cases r0
      constructor
      · intro res ses' st'' hret
        rw [(delete_me_drop_then_delete st u h fsRes reloadRes).2.1 st' hdu] at hret
        cases hret
        exact Or.inl ⟨{}, rfl⟩
      · constructor
        · intro hret
          rw [(delete_me_drop_then_delete st u h fsRes reloadRes).2.1 st' hdu] at hret
          cases hret
        · intro ⟨a', ha', e, st'', hdu', _⟩
          cases ha'
          rw [hdu] at hdu'
          cases hdu'
    | error e =>
      rcases hget : st'.get_user_storage u reloadRes with ⟨g, st''⟩
      cases g with
      | ok id =>
        constructor
        · intro res ses' st''' hret
          rw [(delete_me_drop_then_delete st u h fsRes reloadRes).2.2
            e st' id st'' hdu hget] at hret
          cases hret
          exact Or.inr ⟨⟨u, id⟩, rfl, get_user_storage_ok_live hget⟩
        · constructor
          · intro hret
            rw [(delete_me_drop_then_delete st u h fsRes reloadRes).2.2
              e st' id st'' hdu hget] at hret
            cases hret
          · intro ⟨a', ha', e0, st0, hdu', e', hget'⟩
            cases ha'
            rw [hdu] at hdu'
            cases hdu'
            rw [hget] at hget'
            cases hget'
      | error e' =>
        have hpanic : delete_me st (.Authorized ⟨u, h⟩) fsRes reloadRes = none := by
          simp only [delete_me, Session.as_authorized]
          rw [hdu]
          simp only [hget]
        constructor
        · intro res ses' st''' hret
          rw [hpanic] at hret
          cases hret
        · constructor
          · intro _
            exact ⟨⟨u, h⟩, rfl, e, st', hdu, e', by rw [hget]⟩
          · intro _
            exact hpanic

/-- Witness for C10: a failing delete (`Io`) followed by a failing reload
makes `delete_me` panic (`none`); and a successful self-delete returns an
`Unauthorized` session. -/
theorem delete_me_no_dangling_session_witness :
    delete_me ⟨1, [("alice", 0)], [(0, 1)], [(0, "alice")]⟩
        (.Authorized ⟨"alice", 0⟩) (.error .Io) (.error .Io) = none ∧
    ((∃ unauth, (Session.Unauthorized ({} : Unauthorized)) = .Unauthorized unauth) ∨
      (∃ a : Authorized, (Session.Unauthorized ({} : Unauthorized)) = .Authorized a ∧
        0 < StorageState.strongCount ⟨1, [], [(0, 0)], [(0, "alice")]⟩ a.user_storage)) := by
  constructor
  · exact (delete_me_no_dangling_session ⟨1, [("alice", 0)], [(0, 1)], [(0, "alice")]⟩
      (.Authorized ⟨"alice", 0⟩) (.error .Io) (.error .Io)).2.mpr
      ⟨⟨"alice", 0⟩, rfl, .Io, ⟨1, [], [(0, 0)], [(0, "alice")]⟩, rfl, .Io, rfl⟩
  · exact (delete_me_no_dangling_session ⟨1, [("alice", 0)], [(0, 1)], [(0, "alice")]⟩
      (.Authorized ⟨"alice", 0⟩) (.ok ()) (.ok ())).1 (.ok "Ok") (.Unauthorized {})
      ⟨1, [], [(0, 0)], [(0, "alice")]⟩ rfl

/-- All samples of the `Alphanumeric` distribution are (ASCII) alphanumeric
characters. -/
theorem sampleAlphanumeric_isAlphanum (r : Nat → Fin 62) (i : Nat) :
    (sampleAlphanumeric r i).isAlphanum = true := by
  unfold sampleAlphanumeric
  rw [List.getD_eq_getElem?_getD]
  cases hg : GEN_ASCII_STR_CHARSET[(r i : Nat)]? with
  | none => simp [hg]
  | some c =>
    have hmem : c ∈ GEN_ASCII_STR_CHARSET := by
      have := List.getElem?_mem hg
      exact this
    have hall : ∀ x ∈ GEN_ASCII_STR_CHARSET, x.isAlphanum = true := by decide
    simp [hg]
    exact hall c hmem

/-- **C4**: on an `Unauthorized` session with pending challenge `chal`, a
`confirm_login` response that does not decrypt (under the server's secret
key) to `chal` fails with `InvalidConfirmationString` and leaves the session
`Unauthorized` with the pending challenge cleared (the consumed session is
replaced by `Unauthorized::default()`, whose `login_confirmation` is empty);
the storage is untouched. -/
theorem confirm_login_mismatch_clears_challenge :
    ∀ (st : StorageState) (u chal : String) (args : List String) (resp : String)
      (sec_key : Key) (loadRes : Except StorageError Unit),
      args.head? = some resp →
      sec_key.decrypt resp ≠ chal →
      confirm_login st (.Unauthorized ⟨u, chal⟩) args sec_key loadRes
        = (.error .InvalidConfirmationString, .Unauthorized {}, st) ∧
      ({} : Unauthorized).login_confirmation = "" := by
  intro st u chal args resp sec_key loadRes hhead hne
  refine ⟨?_, rfl⟩
  simp only [confirm_login]
  rw [hhead]
  simp only []
  rw [if_pos hne]

/-- Witness for C4: decrypting `"wrong"` does not give the pending challenge
`"secret"`, so `confirm_login` fails and resets the session to the default
`Unauthorized` state. -/
theorem confirm_login_mismatch_clears_challenge_witness :
    confirm_login ⟨0, [], [], []⟩ (.Unauthorized ⟨"alice", "secret"⟩) ["wrong"]
        ⟨5, 221⟩ (.ok ())
      = (.error .InvalidConfirmationString, .Unauthorized {}, ⟨0, [], [], []⟩) :=
  (confirm_login_mismatch_clears_challenge ⟨0, [], [], []⟩ "alice" "secret"
    ["wrong"] "wrong" ⟨5, 221⟩ (.ok ()) rfl (by decide)).1

/-- **C5**: for a registered user, `login` samples a fresh 30-character
alphanumeric nonce (so at least 30 characters), stores the nonce encrypted
with the user's public key as the session's pending challenge — the session
still `Unauthorized` with the username recorded — and returns that
challenge; a subsequent `confirm_login` whose argument decrypts (under the
server's secret key) to the stored challenge obtains a store handle for the
username and transitions the session to `Authorized`, returning `Ok`. -/
theorem login_confirm_handshake :
    ∀ (session : Session) (args : List String) (pub_key : Key)
      (r : Nat → Fin 62) (u : String),
      args.head? = some u →
      is_safe_for_filename u = true →
      ∃ chal,
        login session args (.ok pub_key) r = (.ok chal, .Unauthorized ⟨u, chal⟩) ∧
        chal = pub_key.encrypt (randAlphanumericString r RAND_STRING_LENGTH) ∧
        30 ≤ (randAlphanumericString r RAND_STRING_LENGTH).data.length ∧
        (∀ c ∈ (randAlphanumericString r RAND_STRING_LENGTH).data,
          c.isAlphanum = true) ∧
        (∀ (st : StorageState) (sec_key : Key) (args₂ : List String)
          (resp : String),
          args₂.head? = some resp →
          sec_key.decrypt resp = chal →
          ∃ id st',
            st.get_user_storage u (.ok ()) = (.ok id, st') ∧
            confirm_login st (.Unauthorized ⟨u, chal⟩) args₂ sec_key (.ok ())
              = (.ok "Ok", .Authorized ⟨u, id⟩, st')) := by
  intro session args pub_key r u hhead hsafe
  refine ⟨pub_key.encrypt (randAlphanumericString r RAND_STRING_LENGTH),
    ?_, rfl, ?_, ?_, ?_⟩
  · simp only [login]
    rw [hhead]
    simp only []
    rw [if_neg (fun hc => hc hsafe)]
  · simp [randAlphanumericString, RAND_STRING_LENGTH]
  · intro c hc
    simp only [randAlphanumericString, String.data] at hc
    simp only [List.mem_map] at hc
    obtain ⟨i, _, hi⟩ := hc
    rw [← hi]
    exact sampleAlphanumeric_isAlphanum r i
  · intro st sec_key args₂ resp hhead₂ hresp
    obtain ⟨id, st', hget⟩ := StorageState.get_user_storage_ok_total st u
    refine ⟨id, st', hget, ?_⟩
    simp only [confirm_login]
    rw [hhead₂]
    simp only []
    rw [if_neg (fun hc => hc hresp)]
    simp only [hget]

/-- Witness for C5: with the constant sample stream the nonce is 30 `'A'`s;
`login "alice"` stores it as the pending challenge and the matching
`confirm_login` authorizes the session. -/
theorem login_confirm_handshake_witness :
    ∃ chal,
      login (.Unauthorized {}) ["alice"] (.ok ⟨269, 221⟩) (fun _ => 0)
        = (.ok chal, .Unauthorized ⟨"alice", chal⟩) ∧
      ∃ id st',
        confirm_login ⟨0, [], [], []⟩ (.Unauthorized ⟨"alice", chal⟩) [chal]
            ⟨5, 221⟩ (.ok ())
          = (.ok "Ok", .Authorized ⟨"alice", id⟩, st') := by
  obtain ⟨chal, h1, _, _, _, h5⟩ := login_confirm_handshake (.Unauthorized {})
    ["alice"] ⟨269, 221⟩ (fun _ => 0) "alice" rfl (by decide)
  obtain ⟨id, st', _, h7⟩ := h5 ⟨0, [], [], []⟩ ⟨5, 221⟩ [chal] chal rfl rfl
  exact ⟨chal, h1, id, st', h7⟩

/-! ## Framer lemmas -/

theorem read_until_concat_eot {l : List Char} (h : ∀ c ∈ l, c ≠ EOT) :
    read_until (l ++ [EOT]) = l ++ [EOT] := by
  induction l with
  | nil => simp [read_until]
  | cons c rest ih =>
    have hc : c ≠ EOT := h c (List.mem_cons_self c rest)
    have ih' := ih (fun x hx => h x (List.mem_cons_of_mem c hx))
    simp only [List.cons_append, read_until, List.append_eq]
    rw [if_neg (by simpa using hc), ih']

theorem endsWithCRLF_concat_crlf (l : List Char) :
    endsWithCRLF (l ++ ['\r', '\n']) = true := by
  simp [endsWithCRLF, List.reverse_append]

theorem dropLast_dropLast_concat_crlf (l : List Char) :
    (l ++ ['\r', '\n']).dropLast.dropLast = l := by
  have : l ++ ['\r', '\n'] = (l ++ ['\r']) ++ ['\n'] := by simp
  rw [this, List.dropLast_concat, List.dropLast_concat]

/-- Shape of a successful `make_request`. -/
theorem make_request_eq_ok {request : String}
    (hany : request.data.any (fun byte => byte == EOT) = false) :
    make_request request
      = .ok (request.data
          ++ (if endsWithCRLF request.data then [] else ['\r', '\n'])
          ++ [EOT]) := by
  simp only [make_request, hany, Bool.false_eq_true, if_false]
  by_cases hcrlf : endsWithCRLF request.data
  · simp [hcrlf]
  · simp [hcrlf]

/-- **C7**: `make_request` fails — with `InvalidRequest` — iff the request
text contains the terminator byte `0x04`; when it succeeds the produced frame
is the payload, followed by `"\r\n"` exactly when the payload did not already
end with it, followed by one terminator. -/
theorem make_request_terminator_rejection :
    ∀ request : String,
      (request.data.any (fun byte => byte == EOT) = true →
        make_request request
          = .error (.InvalidRequest "request should not contain EOT byte")) ∧
      (request.data.any (fun byte => byte == EOT) = false →
        make_request request
          = .ok (request.data
              ++ (if endsWithCRLF request.data then [] else ['\r', '\n'])
              ++ [EOT])) ∧
      ((∃ e, make_request request = .error e) ↔
        request.data.any (fun byte => byte == EOT) = true) := by
  intro request
  refine ⟨?_, ?_, ?_⟩
  · intro hany
    simp [make_request, hany]
  · intro hany
    exact make_request_eq_ok hany
  · constructor
    · intro ⟨e, he⟩
      by_cases hany : request.data.any (fun byte => byte == EOT) = true
      · exact hany
      · rw [make_request_eq_ok (eq_false_of_ne_true hany)] at he
        cases he
    · intro hany
      exact ⟨.InvalidRequest "request should not contain EOT byte",
        by simp [make_request, hany]⟩

/-- Witness for C7: `"hi"` contains no terminator and is framed as
`hi\r\n` + EOT; a request containing the EOT character is rejected. -/
theorem make_request_terminator_rejection_witness :
    make_request "hi"
      = .ok ("hi".data ++ (if endsWithCRLF "hi".data then [] else ['\r', '\n'])
          ++ [EOT]) ∧
    make_request (String.mk ['h', EOT])
      = .error (.InvalidRequest "request should not contain EOT byte") :=
  ⟨(make_request_terminator_rejection "hi").2.1 (by decide),
   (make_request_terminator_rejection (String.mk ['h', EOT])).1 (by decide)⟩

/-- **C6**: for every text containing no terminator character, decoding the
encoding of the text returns the text up to CRLF normalization:
`read_response (make_request text) = stripCRLF text`, and exactly `text`
whenever the text does not already end in `"\r\n"` (the framer appends
`"\r\n"` if absent plus the terminator; the decoder strips a trailing
terminator and then a trailing `"\r\n"`). -/
theorem framing_roundtrip :
    ∀ (text : String) (frame : List Char),
      (∀ c ∈ text.data, c ≠ EOT) →
      make_request text = .ok frame →
      read_response frame = stripCRLF text.data ∧
      (endsWithCRLF text.data = false → read_response frame = text.data) := by
  intro text frame hno hmk
  have hany : text.data.any (fun byte => byte == EOT) = false := by
    simp only [List.any_eq_false]
    intro c hc
    simpa using hno c hc
  rw [make_request_eq_ok hany] at hmk
  cases hmk
  by_cases hcrlf : endsWithCRLF text.data
  · have hfr : text.data ++ (if endsWithCRLF text.data then [] else ['\r', '\n'])
        ++ [EOT] = text.data ++ [EOT] := by
      rw [if_pos hcrlf, List.append_nil]
    rw [hfr]
    constructor
    · simp only [read_response]
      rw [read_until_concat_eot hno]
      rw [if_neg (by simp), if_pos (by simp [List.getLast?_concat]),
        List.dropLast_concat]
    · intro hfalse
      rw [hfalse] at hcrlf
      cases hcrlf
  · have hcrlf' : endsWithCRLF text.data = false := eq_false_of_ne_true hcrlf
    have hfr : text.data ++ (if endsWithCRLF text.data then [] else ['\r', '\n'])
        ++ [EOT] = (text.data ++ ['\r', '\n']) ++ [EOT] := by
      rw [if_neg hcrlf, List.append_assoc]
    rw [hfr]
    have hno' : ∀ c ∈ text.data ++ ['\r', '\n'], c ≠ EOT := by
      intro c hc
      rcases List.mem_append.mp hc with h | h
      · exact hno c h
      · intro he
        subst he
        revert h
        decide
    have hread : read_response ((text.data ++ ['\r', '\n']) ++ [EOT]) = text.data := by
      simp only [read_response]
      rw [read_until_concat_eot hno']
      rw [if_neg (by simp), if_pos (by simp [List.getLast?_concat]),
        List.dropLast_concat]
      unfold stripCRLF
      rw [if_pos (endsWithCRLF_concat_crlf text.data),
        dropLast_dropLast_concat_crlf]
    refine ⟨?_, fun _ => hread⟩
    rw [hread]
    unfold stripCRLF
    rw [if_neg (by simp [hcrlf'])]

/-- Witness for C6: the frame of `"hi"` decodes back to `"hi"`. -/
theorem framing_roundtrip_witness :
    read_response ("hi".data ++ (if endsWithCRLF "hi".data then [] else ['\r', '\n'])
        ++ [EOT]) = "hi".data :=
  (framing_roundtrip "hi" _ (by decide) (make_request_eq_ok (by decide))).2 (by decide)

/-! ## Filename-safety lemmas -/

theorem isAlphanum_toNat_lt {c : Char} (h : c.isAlphanum = true) : c.toNat < 128 := by
  simp [Char.isAlphanum, Char.isAlpha, Char.isDigit, Char.isUpper, Char.isLower,
    UInt32.le_def, BitVec.le_def, Char.toNat, UInt32.toNat] at h ⊢
  omega

theorem charUtf8Size_of_allowed {c : Char}
    (h : (c.isAlphanum || c == '.' || c == '@' || c == '_') = true) :
    charUtf8Size c = 1 := by
  have h' : c.isAlphanum = true ∨ c = '.' ∨ c = '@' ∨ c = '_' := by
    simpa [Bool.or_eq_true, beq_iff_eq, or_assoc] using h
  rcases h' with h' | h' | h' | h'
  · unfold charUtf8Size
    rw [if_pos (by have := isAlphanum_toNat_lt h'; omega)]
  · subst h'
    decide
  · subst h'
    decide
  · subst h'
    decide

theorem utf8Len_eq_length_aux : ∀ l : List Char,
    (∀ c ∈ l, (c.isAlphanum || c == '.' || c == '@' || c == '_') = true) →
    (l.map charUtf8Size).sum = l.length := by
  intro l
  induction l with
  | nil =>
    intro _
    simp
  | cons c rest ih =>
    intro h
    simp only [List.map_cons, List.sum_cons, List.length_cons]
    rw [charUtf8Size_of_allowed (h c (List.mem_cons_self c rest)),
      ih (fun x hx => h x (List.mem_cons_of_mem c hx))]
    omega

theorem utf8Len_eq_length {name : String}
    (h : ∀ c ∈ name.data, (c.isAlphanum || c == '.' || c == '@' || c == '_') = true) :
    utf8Len name = name.data.length :=
  utf8Len_eq_length_aux name.data h

theorem any_two_dots_iff : ∀ l : List Char,
    ((l.zip (l.drop 1)).any fun p => p.1 == '.' && p.2 == '.') = true ↔
      ['.', '.'] <:+: l := by
  intro l
  induction l with
  | nil => simp
  | cons c rest ih =>
    cases rest with
    | nil =>
      constructor
      · intro h
        simp at h
      · intro h
        have := h.length_le
        simp at this
    | cons c2 rest2 =>
      rw [List.infix_cons_iff, ← ih]
      constructor
      · intro h
        simp only [List.drop_succ_cons, List.drop_zero, List.zip_cons_cons,
          List.any_cons, Bool.or_eq_true, Bool.and_eq_true, beq_iff_eq] at h
        rcases h with ⟨hc, hc2⟩ | h
        · subst hc
          subst hc2
          exact Or.inl (by simp [List.cons_prefix_cons])
        · exact Or.inr (by simpa using h)
      · intro h
        simp only [List.drop_succ_cons, List.drop_zero, List.zip_cons_cons,
          List.any_cons, Bool.or_eq_true, Bool.and_eq_true, beq_iff_eq]
        rcases h with h | h
        · rw [List.cons_prefix_cons] at h
          obtain ⟨h1, h2⟩ := h
          rw [List.cons_prefix_cons] at h2
          exact Or.inl ⟨h1.symm, h2.1.symm⟩
        · exact Or.inr (by simpa using h)

theorem is_contains_two_dots_iff (s : String) :
    is_contains_two_dots s = true ↔ ['.', '.'] <:+: s.data :=
  any_two_dots_iff s.data

/-- `is_safe_for_filename` unfolded clause by clause (still with the source's
byte length). -/
theorem safe_bool_unfold (name : String) :
    is_safe_for_filename name = true ↔
      (name.data.isEmpty = false ∧
       (∀ c ∈ name.data, (c.isAlphanum || c == '.' || c == '@' || c == '_') = true) ∧
       (∃ c ∈ name.data, c.isAlpha = true) ∧
       is_contains_two_dots name = false ∧
       name.data.head? ≠ some '.' ∧ name.data.head? ≠ some '@' ∧
       name.data.head? ≠ some '_' ∧
       name.data.getLast? ≠ some '.' ∧ name.data.getLast? ≠ some '@' ∧
       name.data.getLast? ≠ some '_' ∧
       utf8Len name ≤ 32) := by
  unfold is_safe_for_filename
  simp only [Bool.not_eq_true', Bool.or_eq_false_iff, Bool.not_eq_false,
    List.all_eq_true, List.any_eq_true, beq_eq_false_iff_ne, ne_eq,
    decide_eq_false_iff_not, not_lt, gt_iff_lt, Bool.not_eq_false', and_assoc]

/-- **C9**: the filename-safety predicate accepts a name iff it is non-empty,
every character is ASCII alphanumeric or one of `.`/`@`/`_`, at least one
character is alphabetic, it does not contain the substring `".."`, it does
not start or end with `.`/`@`/`_`, and its length is at most 32; in
particular `"user_404@example.com"` is accepted and the specified examples
are rejected. -/
theorem is_safe_for_filename_spec :
    (∀ name : String,
      is_safe_for_filename name = true ↔
        (name.data ≠ [] ∧
         (∀ c ∈ name.data, c.isAlphanum = true ∨ c = '.' ∨ c = '@' ∨ c = '_') ∧
         (∃ c ∈ name.data, c.isAlpha = true) ∧
         ¬ ['.', '.'] <:+: name.data ∧
         name.data.head? ≠ some '.' ∧ name.data.head? ≠ some '@' ∧
         name.data.head? ≠ some '_' ∧
         name.data.getLast? ≠ some '.' ∧ name.data.getLast? ≠ some '@' ∧
         name.data.getLast? ≠ some '_' ∧
         name.data.length ≤ 32)) ∧
    is_safe_for_filename "user_404@example.com" = true ∧
    is_safe_for_filename "" = false ∧
    is_safe_for_filename "a..b" = false ∧
    is_safe_for_filename ".a" = false ∧
    is_safe_for_filename "a." = false ∧
    is_safe_for_filename "@a" = false ∧
    is_safe_for_filename "a@" = false ∧
    is_safe_for_filename "_a" = false ∧
    is_safe_for_filename "a_" = false ∧
    is_safe_for_filename "123" = false ∧
    is_safe_for_filename "XXXXXXXXXXXXXXXXXXXXXXXXXXXXXXXXX" = false := by
  refine ⟨?_, by decide, by decide, by decide, by decide, by decide, by decide,
    by decide, by decide, by decide, by decide, by decide⟩
  intro name
  rw [safe_bool_unfold]
  have hclass : (∀ c ∈ name.data, (c.isAlphanum || c == '.' || c == '@' || c == '_') = true)
      ↔ (∀ c ∈ name.data, c.isAlphanum = true ∨ c = '.' ∨ c = '@' ∨ c = '_') := by
    refine forall_congr' fun c => forall_congr' fun _ => ?_
    simp [Bool.or_eq_true, beq_iff_eq, or_assoc]
  constructor
  · intro ⟨h1, h2, h3, h4, h5, h6, h7, h8, h9, h10, h11⟩
    refine ⟨?_, hclass.mp h2, h3, ?_, h5, h6, h7, h8, h9, h10, ?_⟩
    · intro hnil
      rw [hnil] at h1
      cases h1
    · intro hinf
      rw [(is_contains_two_dots_iff name).mpr hinf] at h4
      cases h4
    · rw [← utf8Len_eq_length h2]
      exact h11
  · intro ⟨h1, h2, h3, h4, h5, h6, h7, h8, h9, h10, h11⟩
    have h2' := hclass.mpr h2
    refine ⟨?_, h2', h3, ?_, h5, h6, h7, h8, h9, h10, ?_⟩
    · cases hd : name.data with
      | nil => exact absurd hd h1
      | cons c rest => rfl
    · cases htd : is_contains_two_dots name with
      | false => rfl
      | true => exact absurd ((is_contains_two_dots_iff name).mp htd) h4
    · rw [utf8Len_eq_length h2']
      exact h11

/-- Witness for C9: `"user_404@example.com"` satisfies all the clauses of the
characterization, hence is accepted. -/
theorem is_safe_for_filename_spec_witness :
    is_safe_for_filename "user_404@example.com" = true :=
  (is_safe_for_filename_spec.1 "user_404@example.com").mpr (by decide)

/-! ## Tokenizer lemmas -/

theorem tokenize_quote_some {c : Char} {rest : List Char} {p : List Char × List Char}
    (hq : (c == QUOTE) = true) (h : splitAtQuote rest = some p) :
    tokenize (c :: rest) = p.1 :: tokenize p.2 := by
  rw [tokenize]
  simp only [hq, if_true]
  split
  next p' heq =>
    rw [h] at heq
    cases heq
    rfl
  next heq =>
    rw [h] at heq
    cases heq

theorem tokenize_quote_none {c : Char} {rest : List Char}
    (hq : (c == QUOTE) = true) (h : splitAtQuote rest = none) :
    tokenize (c :: rest) = tokenize rest := by
  rw [tokenize]
  simp only [hq, if_true]
  split
  next p' heq =>
    rw [h] at heq
    cases heq
  next heq =>
    rfl

theorem tokenize_ws {c : Char} {rest : List Char}
    (hq : ¬ (c == QUOTE) = true) (hw : isRegexWhitespace c = true) :
    tokenize (c :: rest) = tokenize rest := by
  rw [tokenize]
  simp only [if_neg hq, hw, if_true]

theorem tokenize_run {c : Char} {rest : List Char}
    (hq : ¬ (c == QUOTE) = true) (hw : ¬ isRegexWhitespace c = true) :
    tokenize (c :: rest) = (c :: (takeRun rest).1) :: tokenize (takeRun rest).2 := by
  rw [tokenize]
  simp only [if_neg hq, if_neg hw]

theorem takeRun_decomp : ∀ l : List Char, l = (takeRun l).1 ++ (takeRun l).2 := by
  intro l
  induction l with
  | nil => rfl
  | cons c rest ih =>
    simp only [takeRun]
    split
    · rfl
    · simpa using ih

theorem takeRun_no_ws_no_quote : ∀ l : List Char, ∀ c ∈ (takeRun l).1,
    isRegexWhitespace c = false ∧ (c == QUOTE) = false := by
  intro l
  induction l with
  | nil =>
    intro c hc
    cases hc
  | cons c rest ih =>
    simp only [takeRun]
    split
    next =>
      intro x hx
      cases hx
    next hcond =>
      intro x hx
      have hor := hcond
      rw [Bool.or_eq_true] at hor
      push_neg at hor
      have hcond' : isRegexWhitespace c = false ∧ (c == QUOTE) = false :=
        ⟨eq_false_of_ne_true hor.1, eq_false_of_ne_true hor.2⟩
      rcases List.mem_cons.mp (by simpa using hx) with h | h
      · rw [h]
        exact hcond'
      · exact ih x h

theorem splitAtQuote_decomp : ∀ (l : List Char) (p : List Char × List Char),
    splitAtQuote l = some p → l = p.1 ++ QUOTE :: p.2 ∧ QUOTE ∉ p.1 := by
  intro l
  induction l with
  | nil =>
    intro p h
    cases h
  | cons c rest ih =>
    intro p h
    simp only [splitAtQuote] at h
    by_cases hq : (c == QUOTE) = true
    · rw [if_pos hq] at h
      cases h
      have : c = QUOTE := by simpa using hq
      subst this
      exact ⟨rfl, by simp⟩
    · rw [if_neg hq] at h
      revert h
      split
      next p' heq =>
        intro h
        cases h
        obtain ⟨hdec, hmem⟩ := ih p' heq
        constructor
        · simp only [List.cons_append]
          exact congrArg (c :: ·) hdec
        · intro hmem'
          rcases List.mem_cons.mp hmem' with h | h
          · exact hq (by rw [← h]; simp)
          · exact hmem h
      next =>
        intro h
        cases h

/-- Every token `tokenize` emits contains no quote character, and a token
containing whitespace came from a double-quoted span of the input (order and
position witnessed by the infix embedding). -/
theorem tokenize_sound : ∀ (l t : List Char), t ∈ tokenize l →
    QUOTE ∉ t ∧
    ((∃ c ∈ t, isRegexWhitespace c = true) → QUOTE :: (t ++ [QUOTE]) <:+: l) := by
  intro l
  induction l using tokenize.induct with
  | case1 =>
    intro t ht
    rw [show tokenize ([] : List Char) = [] from by rw [tokenize]] at ht
    cases ht
  | case2 c rest hq p hsplit ih =>
    intro t ht
    rw [tokenize_quote_some hq hsplit] at ht
    obtain ⟨hdec, hnq⟩ := splitAtQuote_decomp rest p hsplit
    have hceq : c = QUOTE := by simpa using hq
    rcases List.mem_cons.mp ht with h | h
    · subst h
      refine ⟨hnq, fun _ => ?_⟩
      refine ⟨[], p.2, ?_⟩
      rw [hdec, hceq]
      simp
    · obtain ⟨h1, h2⟩ := ih t h
      refine ⟨h1, fun hws => ?_⟩
      refine (h2 hws).trans ⟨QUOTE :: p.1 ++ [QUOTE], [], ?_⟩
      rw [hdec, hceq]
      simp
  | case3 c rest hq hsplit ih =>
    intro t ht
    rw [tokenize_quote_none hq hsplit] at ht
    obtain ⟨h1, h2⟩ := ih t ht
    refine ⟨h1, fun hws => ?_⟩
    exact (h2 hws).trans ⟨[c], [], by simp⟩
  | case4 c rest hq hw ih =>
    intro t ht
    rw [tokenize_ws hq hw] at ht
    obtain ⟨h1, h2⟩ := ih t ht
    refine ⟨h1, fun hws => ?_⟩
    exact (h2 hws).trans ⟨[c], [], by simp⟩
  | case5 c rest hq hw ih =>
    intro t ht
    rw [tokenize_run hq hw] at ht
    rcases List.mem_cons.mp ht with h | h
    · subst h
      constructor
      · intro hmem
        rcases List.mem_cons.mp hmem with h | h
        · exact hq (by rw [← h]; simp)
        · exact absurd (takeRun_no_ws_no_quote rest QUOTE h).2 (by simp)
      · intro ⟨x, hx, hxw⟩
        rcases List.mem_cons.mp hx with h | h
        · rw [h] at hxw
          exact absurd hxw hw
        · have := (takeRun_no_ws_no_quote rest x h).1
          rw [this] at hxw
          cases hxw
    · obtain ⟨h1, h2⟩ := ih t h
      refine ⟨h1, fun hws => ?_⟩
      refine (h2 hws).trans ⟨c :: (takeRun rest).1, [], ?_⟩
      rw [List.append_nil, List.cons_append]
      exact congrArg (c :: ·) (takeRun_decomp rest).symm

/-- **C8**: the tokenizer splits request text into tokens that are either
runs of non-whitespace, non-quote characters or double-quoted spans that may
contain whitespace (quotes stripped, order preserved): no emitted token
contains a quote, a token containing whitespace is the interior of a quoted
span of the input, and tokenizing `cmd "a b" c` yields the command `cmd`
with arguments `a b` and `c`. -/
theorem tokenizer_quoting :
    (∀ (s t : List Char), t ∈ tokenize s →
      QUOTE ∉ t ∧
      ((∃ c ∈ t, isRegexWhitespace c = true) → QUOTE :: (t ++ [QUOTE]) <:+: s)) ∧
    tokenize ['c', 'm', 'd', ' ', QUOTE, 'a', ' ', 'b', QUOTE, ' ', 'c']
      = [['c', 'm', 'd'], ['a', ' ', 'b'], ['c']] ∧
    dispatch_split (String.mk ['c', 'm', 'd', ' ', QUOTE, 'a', ' ', 'b', QUOTE, ' ', 'c'])
      = some ("cmd", ["a b", "c"]) := by
  have hconc : tokenize ['c', 'm', 'd', ' ', QUOTE, 'a', ' ', 'b', QUOTE, ' ', 'c']
      = [['c', 'm', 'd'], ['a', ' ', 'b'], ['c']] := by
    simp [tokenize, takeRun, splitAtQuote, isRegexWhitespace, regexWhitespace, QUOTE]
  refine ⟨tokenize_sound, hconc, ?_⟩
  simp only [dispatch_split, dispatch_tokens]
  rw [hconc]
  rfl

/-- Witness for C8: the quoted token `a b` of `cmd "a b" c` contains no
quote, and its quoted span occurs in the request text. -/
theorem tokenizer_quoting_witness :
    QUOTE ∉ ['a', ' ', 'b'] ∧
    QUOTE :: (['a', ' ', 'b'] ++ [QUOTE])
      <:+: ['c', 'm', 'd', ' ', QUOTE, 'a', ' ', 'b', QUOTE, ' ', 'c'] := by
  have h := tokenizer_quoting.1 ['c', 'm', 'd', ' ', QUOTE, 'a', ' ', 'b', QUOTE, ' ', 'c']
    ['a', ' ', 'b'] (by rw [tokenizer_quoting.2.1]; simp)
  exact ⟨h.1, h.2 ⟨' ', by simp, by decide⟩⟩

end Rpass
